import Mathlib

/-!
Verification development for the `simple-ray-tracer` repository.

The Rust sources are shallowly embedded in Lean.  Machine floats (`f64`)
are modelled in two complementary ways, chosen per component:

* `F`: exact rationals extended with `+inf`, `-inf` and `nan`, with the
  IEEE-754 behaviour of the arithmetic, comparison, `min` and `max`
  operations that the embedded code actually uses.  At inputs where every
  intermediate value of a computation is exactly representable in `f64`
  (small dyadic rationals, infinities produced by division by zero, and
  `nan` from `0/0`), a `f64` run of the source and the `F` run agree
  exactly, so concrete evaluations of the model are faithful to the code.
  This model is used for `interval.rs`, `aabb.rs`, `quad.rs`,
  `hittable_list.rs`, `bvh.rs`, `camera.rs::ray_color`,
  `material.rs::Metal::new` and `texture.rs::ImageTexture::value`.
* `ℝ`: real numbers, for the code whose essence is `sqrt`-bearing
  geometry and gamma encoding (`sphere.rs`, `color.rs`,
  `vec3.rs::random_unit_vector`, `material.rs::Isotropic`), where exact
  real arithmetic is the standard idealisation of `f64`.
-/

namespace RayTracer

/-- Floor-style square root of a nonnegative rational, exact whenever the
argument is the square of a rational with numerator and denominator below
the search bound (the only inputs this development evaluates it at). -/
def ratSqrt (q : ℚ) : ℚ :=
  (Nat.findGreatest (fun k => k * k ≤ q.num.toNat) q.num.toNat : ℚ) /
    (Nat.findGreatest (fun k => k * k ≤ q.den) q.den : ℚ)

/-- Model of `f64`: an exact rational, `+inf`, `-inf`, or `nan`. -/
inductive F where
  | nan : F
  | pinf : F
  | ninf : F
  | fin : ℚ → F
deriving DecidableEq, Repr

namespace F

/-- IEEE negation. -/
def fneg : F → F
  | nan => nan
  | pinf => ninf
  | ninf => pinf
  | fin q => fin (-q)

/-- IEEE addition (`inf + -inf = nan`, `nan` propagates). -/
def fadd : F → F → F
  | nan, _ => nan
  | _, nan => nan
  | pinf, ninf => nan
  | ninf, pinf => nan
  | pinf, _ => pinf
  | _, pinf => pinf
  | ninf, _ => ninf
  | _, ninf => ninf
  | fin a, fin b => fin (a + b)

/-- IEEE subtraction, as `a + (-b)`. -/
def fsub (a b : F) : F := fadd a (fneg b)

/-- IEEE multiplication (`inf * 0 = nan`, signs as usual, `nan` propagates). -/
def fmul : F → F → F
  | nan, _ => nan
  | _, nan => nan
  | pinf, pinf => pinf
  | pinf, ninf => ninf
  | ninf, pinf => ninf
  | ninf, ninf => pinf
  | pinf, fin b => if b > 0 then pinf else if b < 0 then ninf else nan
  | ninf, fin b => if b > 0 then ninf else if b < 0 then pinf else nan
  | fin a, pinf => if a > 0 then pinf else if a < 0 then ninf else nan
  | fin a, ninf => if a > 0 then ninf else if a < 0 then pinf else nan
  | fin a, fin b => fin (a * b)

/-- IEEE division.  `0/0`, `inf/inf` and anything with `nan` give `nan`;
a nonzero finite numerator over zero gives a signed infinity (the model
has a single zero, standing for `+0.0`). -/
def fdiv : F → F → F
  | nan, _ => nan
  | _, nan => nan
  | pinf, pinf => nan
  | pinf, ninf => nan
  | ninf, pinf => nan
  | ninf, ninf => nan
  | pinf, fin b => if b ≥ 0 then pinf else ninf
  | ninf, fin b => if b ≥ 0 then ninf else pinf
  | fin _, pinf => fin 0
  | fin _, ninf => fin 0
  | fin a, fin b =>
    if b = 0 then (if a > 0 then pinf else if a < 0 then ninf else nan)
    else fin (a / b)

/-- IEEE `<=` as a boolean: `nan` compares false with everything. -/
def fle : F → F → Bool
  | nan, _ => false
  | _, nan => false
  | ninf, _ => true
  | _, pinf => true
  | pinf, _ => false
  | _, ninf => false
  | fin a, fin b => decide (a ≤ b)

/-- IEEE `<` as a boolean: `nan` compares false with everything. -/
def flt : F → F → Bool
  | nan, _ => false
  | _, nan => false
  | ninf, ninf => false
  | ninf, _ => true
  | _, ninf => false
  | pinf, _ => false
  | _, pinf => true
  | fin a, fin b => decide (a < b)

/-- Rust `f64::min`: if one argument is `nan` the other is returned. -/
def fmin : F → F → F
  | nan, b => b
  | a, nan => a
  | ninf, _ => ninf
  | _, ninf => ninf
  | pinf, b => b
  | a, pinf => a
  | fin a, fin b => fin (min a b)

/-- Rust `f64::max`: if one argument is `nan` the other is returned. -/
def fmax : F → F → F
  | nan, b => b
  | a, nan => a
  | pinf, _ => pinf
  | _, pinf => pinf
  | ninf, b => b
  | a, ninf => a
  | fin a, fin b => fin (max a b)

/-- IEEE absolute value. -/
def fabs : F → F
  | nan => nan
  | pinf => pinf
  | ninf => pinf
  | fin q => fin |q|

/-- Embeds `f64::sqrt`, modelled exactly where the code evaluates it.  IEEE
`sqrt` is exactly `fin (ratSqrt q)` whenever `q` is the square of a
representable rational (the only inputs this development evaluates it
at); on other finite inputs the model returns the floor-style rational
square root in place of the rounded `f64` value. -/
def fsqrt : F → F
  | nan => nan
  | pinf => pinf
  | ninf => nan
  | fin q => if q < 0 then nan else fin (ratSqrt q)

end F

open F

/-- Embeds `vec3.rs::Vec3` over the exact float model `F`. -/
structure Vec3F where
  x : F
  y : F
  z : F
deriving DecidableEq, Repr

namespace Vec3F

/-- Embeds `Vec3::length_squared`. -/
def length_squared (v : Vec3F) : F :=
  fadd (fadd (fmul v.x v.x) (fmul v.y v.y)) (fmul v.z v.z)

/-- Embeds `Vec3::length`. -/
def length (v : Vec3F) : F := fsqrt v.length_squared

/-- Embeds `Vec3::dot`. -/
def dot (a b : Vec3F) : F :=
  fadd (fadd (fmul a.x b.x) (fmul a.y b.y)) (fmul a.z b.z)

/-- Embeds `Vec3::cross`. -/
def cross (a b : Vec3F) : Vec3F :=
  ⟨fsub (fmul a.y b.z) (fmul a.z b.y),
   fsub (fmul a.z b.x) (fmul a.x b.z),
   fsub (fmul a.x b.y) (fmul a.y b.x)⟩

/-- Embeds `impl Add for Vec3`. -/
def add (a b : Vec3F) : Vec3F := ⟨fadd a.x b.x, fadd a.y b.y, fadd a.z b.z⟩

/-- Embeds `impl Sub for Vec3`. -/
def sub (a b : Vec3F) : Vec3F := ⟨fsub a.x b.x, fsub a.y b.y, fsub a.z b.z⟩

/-- Embeds `impl Neg for Vec3`. -/
def neg (a : Vec3F) : Vec3F := ⟨fneg a.x, fneg a.y, fneg a.z⟩

/-- Embeds `impl Mul<Vec3> for f64` (scalar times vector, componentwise). -/
def smul (s : F) (a : Vec3F) : Vec3F := ⟨fmul s a.x, fmul s a.y, fmul s a.z⟩

/-- Embeds `impl Mul<Vec3> for Vec3` (componentwise product). -/
def mul (a b : Vec3F) : Vec3F := ⟨fmul a.x b.x, fmul a.y b.y, fmul a.z b.z⟩

/-- Embeds `impl Div<f64> for Vec3` (componentwise division by a scalar). -/
def divs (a : Vec3F) (s : F) : Vec3F := ⟨fdiv a.x s, fdiv a.y s, fdiv a.z s⟩

/-- Embeds `Vec3::unit_vector`. -/
def unit_vector (v : Vec3F) : Vec3F := v.divs v.length

end Vec3F

/-- Embeds `ray.rs::Ray`. -/
structure RayF where
  origin : Vec3F
  direction : Vec3F
  time : F
deriving DecidableEq, Repr

/-- Embeds `Ray::at`. -/
def RayF.at (r : RayF) (scalar : F) : Vec3F :=
  r.origin.add (Vec3F.smul scalar r.direction)

/-- Embeds `interval.rs::Interval`. -/
structure IntervalF where
  min : F
  max : F
deriving DecidableEq, Repr

namespace IntervalF

/-- Embeds `Interval::empty`: `[+inf, -inf]`. -/
def empty : IntervalF := ⟨pinf, ninf⟩

/-- Embeds `Interval::new`. -/
def new (min max : F) : IntervalF := ⟨min, max⟩

/-- Embeds `Interval::from_intervals`. -/
def from_intervals (a b : IntervalF) : IntervalF :=
  ⟨fmin a.min b.min, fmax a.max b.max⟩

/-- Embeds `Interval::size`. -/
def size (i : IntervalF) : F := fsub i.max i.min

/-- Embeds `Interval::contains` (inclusive on both ends). -/
def contains (i : IntervalF) (x : F) : Bool :=
  fle i.min x && fle x i.max

/-- Embeds `Interval::surrounds` (strict on both ends). -/
def surrounds (i : IntervalF) (x : F) : Bool :=
  flt i.min x && flt x i.max

/-- Embeds `Interval::clamp`. -/
def clamp (i : IntervalF) (x : F) : F :=
  if flt x i.min then i.min else if flt i.max x then i.max else x

/-- Embeds `Interval::expand`. -/
def expand (i : IntervalF) (delta : F) : IntervalF :=
  let padding := fdiv delta (fin 2)
  new (fsub i.min padding) (fadd i.max padding)

end IntervalF

/-- Embeds `aabb.rs::AABB`. -/
structure AABBF where
  x : IntervalF
  y : IntervalF
  z : IntervalF
deriving DecidableEq, Repr

namespace AABBF

/-- Embeds `AABB::pad_to_minimum`. -/
def pad_to_minimum (interval : IntervalF) : IntervalF :=
  let delta : F := fin (1 / 10000)
  if flt interval.size delta then interval.expand delta else interval

/-- Embeds `AABB::new` (pads every axis to the minimum thickness). -/
def new (x y z : IntervalF) : AABBF :=
  ⟨pad_to_minimum x, pad_to_minimum y, pad_to_minimum z⟩

/-- Embeds `AABB::empty`. -/
def empty : AABBF := ⟨IntervalF.empty, IntervalF.empty, IntervalF.empty⟩

/-- Embeds `AABB::union`. -/
def union (a b : AABBF) : AABBF :=
  ⟨IntervalF.from_intervals a.x b.x,
   IntervalF.from_intervals a.y b.y,
   IntervalF.from_intervals a.z b.z⟩

/-- Embeds `AABB::from_extremes`. -/
def from_extremes (a b : Vec3F) : AABBF :=
  new ⟨fmin a.x b.x, fmax a.x b.x⟩ ⟨fmin a.y b.y, fmax a.y b.y⟩
    ⟨fmin a.z b.z, fmax a.z b.z⟩

/-- Embeds `AABB::longest_axis`.  `Iterator::max_by` keeps the last of several
equal maxima, so a later axis wins ties. -/
def longest_axis (b : AABBF) : ℕ :=
  let sx := b.x.size
  let sy := b.y.size
  let sz := b.z.size
  if fle sx sy then (if fle sy sz then 2 else 1)
  else (if fle sx sz then 2 else 0)

/-- One axis of the slab test in `AABB::hit`: reject when the axis's
entry/exit window, clipped to the query interval, is empty. -/
def hit_axis (interval : IntervalF) (direction origin : F) (t : IntervalF) :
    Bool :=
  let t0 := fdiv (fsub interval.min origin) direction
  let t1 := fdiv (fsub interval.max origin) direction
  let t_min := fmax t.min (fmin t0 t1)
  let t_max := fmin t.max (fmax t0 t1)
  !(fle t_max t_min)

/-- Embeds `AABB::hit`: each axis is tested independently against the query
interval `t` (the running window is not narrowed across axes). -/
def hit (b : AABBF) (ray : RayF) (t : IntervalF) : Bool :=
  hit_axis b.x ray.direction.x ray.origin.x t &&
  hit_axis b.y ray.direction.y ray.origin.y t &&
  hit_axis b.z ray.direction.z ray.origin.z t

end AABBF

/-- Embeds `hittable.rs::HitRecord`.  The `Arc<dyn Material>` reference is
modelled by an opaque numeric identifier. -/
structure HitRecordF where
  point : Vec3F
  normal : Vec3F
  matId : ℕ
  t : F
  u : F
  v : F
  front_face : Bool
deriving DecidableEq, Repr

/-- Embeds `HitRecord::set_face_normal`. -/
def HitRecordF.set_face_normal (rec : HitRecordF) (ray : RayF)
    (normal : Vec3F) : HitRecordF :=
  let ff := flt (ray.direction.dot normal) (fin 0)
  { rec with front_face := ff, normal := if ff then normal else normal.neg }

/-- A `dyn Hittable` trait object: its two methods. -/
structure Object where
  bounding_box : AABBF
  hit : RayF → IntervalF → Option HitRecordF

/-- Embeds `hittable_list.rs::HittableList`. -/
structure HittableList where
  objects : List Object
  bbox : AABBF

namespace HittableList

/-- Embeds `HittableList::new`. -/
def new : HittableList := ⟨[], AABBF.empty⟩

/-- Embeds `HittableList::clear` (empties `objects`; `bbox` is left as is). -/
def clear (l : HittableList) : HittableList := { l with objects := [] }

/-- Embeds `HittableList::add`. -/
def add (l : HittableList) (object : Object) : HittableList :=
  ⟨l.objects ++ [object], l.bbox.union object.bounding_box⟩

/-- The loop body of `HittableList::hit`. -/
def hit_fold (ray : RayF) (interval : IntervalF) :
    List Object → Option HitRecordF → F → Option HitRecordF
  | [], result, _ => result
  | object :: rest, result, closest_so_far =>
    match object.hit ray (IntervalF.new interval.min closest_so_far) with
    | some rec => hit_fold ray interval rest (some rec) rec.t
    | none => hit_fold ray interval rest result closest_so_far

/-- Embeds `HittableList::hit`: linear scan keeping the closest hit so far. -/
def hit (l : HittableList) (ray : RayF) (interval : IntervalF) :
    Option HitRecordF :=
  hit_fold ray interval l.objects none interval.max

end HittableList

/-- Embeds `quad.rs::Quad` (the geometry fields; the material is an id). -/
structure QuadF where
  q : Vec3F
  u : Vec3F
  v : Vec3F
  w : Vec3F
  matId : ℕ
  bbox : AABBF
  normal : Vec3F
  d : F

namespace QuadF

/-- Embeds `Quad::set_bounding_box`. -/
def set_bounding_box (q u v : Vec3F) : AABBF :=
  let bbox1 := AABBF.from_extremes q ((q.add u).add v)
  let bbox2 := AABBF.from_extremes (q.add u) (q.add v)
  bbox1.union bbox2

/-- Embeds `Quad::new`. -/
def new (q u v : Vec3F) (matId : ℕ) : QuadF :=
  let bbox := set_bounding_box q u v
  let n := u.cross v
  let normal := n.unit_vector
  let d := normal.dot q
  let w := n.divs (n.dot n)
  ⟨q, u, v, w, matId, bbox, normal, d⟩

/-- Embeds `impl Hittable for Quad`, the `hit` method. -/
def hit (self : QuadF) (ray : RayF) (interval : IntervalF) :
    Option HitRecordF :=
  let denominator := self.normal.dot ray.direction
  if flt (fabs denominator) (fin (1 / 100000000)) then none
  else
    let t := fdiv (fsub self.d (self.normal.dot ray.origin)) denominator
    if !(interval.contains t) then none
    else
      let intersection := ray.at t
      let p := intersection.sub self.q
      let alpha := self.w.dot (p.cross self.v)
      let beta := self.w.dot (self.u.cross p)
      if !(fle (fin 0) alpha && fle alpha (fin 1)) ||
         !(fle (fin 0) beta && fle beta (fin 1)) then none
      else
        let rec0 : HitRecordF :=
          ⟨intersection, self.normal, self.matId, t, alpha, beta, false⟩
        some (rec0.set_face_normal ray self.normal)

/-- A quad, packaged as a `dyn Hittable` trait object. -/
def toObject (self : QuadF) : Object := ⟨self.bbox, self.hit⟩

end QuadF

/-- A tree of `Arc<dyn Hittable>` values as built by `bvh.rs`: a child is
either a primitive object or a further `BVHNode`. -/
inductive BVHT where
  | leaf : Object → BVHT
  | node : BVHT → BVHT → AABBF → BVHT

/-- Indexing `objects[i]` (Rust panics out of bounds; the model is only
evaluated in bounds). -/
def objAt (l : List Object) (i : ℕ) : Object :=
  l.getD i ⟨AABBF.empty, fun _ _ => none⟩

/-- Embeds `BVHNode::box_compare_{x,y,z}`, selected by axis, as the boolean
"less or equal" order on the boxes' axis minima. -/
def box_compare (axis : ℕ) (a b : Object) : Bool :=
  match axis with
  | 0 => fle a.bounding_box.x.min b.bounding_box.x.min
  | 1 => fle a.bounding_box.y.min b.bounding_box.y.min
  | _ => fle a.bounding_box.z.min b.bounding_box.z.min

/-- Insertion step of the sort modelling Rust's `slice::sort_by`. -/
def insertLe (le : α → α → Bool) (x : α) : List α → List α
  | [] => [x]
  | y :: ys => if le x y then x :: y :: ys else y :: insertLe le x ys

/-- The sort modelling Rust's `slice::sort_by` (an insertion sort; the
spec leaves tie order unconstrained, so the exact algorithm is not
load-bearing). -/
def sortLe (le : α → α → Bool) : List α → List α
  | [] => []
  | x :: xs => insertLe le x (sortLe le xs)

/-- Embeds `objects[start..end].sort_by(comparator)`: sorts the sub-range in
place and keeps the rest. -/
def sortRange (le : Object → Object → Bool) (l : List Object)
    (start stop : ℕ) : List Object :=
  l.take start ++ sortLe le ((l.drop start).take (stop - start)) ++ l.drop stop

/-- Embeds `BVHNode::from_hittable_list`, with explicit recursion fuel: `none`
means the Rust recursion has not reached a terminal case within `fuel`
nested calls.  A span of 1 or 2 is terminal; any other span (including
0) sorts the sub-range and recurses on the two halves. -/
def from_hittable_list : ℕ → List Object → ℕ → ℕ → Option (BVHT × List Object)
  | 0, _, _, _ => none
  | fuel + 1, objects, start, stop =>
    let bbox := (List.range' start (stop - start)).foldl
      (fun b i => b.union (objAt objects i).bounding_box) AABBF.empty
    let axis := bbox.longest_axis
    let span := stop - start
    match span with
    | 1 => some (.node (.leaf (objAt objects start)) (.leaf (objAt objects start))
        bbox, objects)
    | 2 => some (.node (.leaf (objAt objects start))
        (.leaf (objAt objects (start + 1))) bbox, objects)
    | _ =>
      let sorted := sortRange (box_compare axis) objects start stop
      let mid := start + span / 2
      match from_hittable_list fuel sorted start mid with
      | none => none
      | some (left, objs1) =>
        match from_hittable_list fuel objs1 mid stop with
        | none => none
        | some (right, objs2) => some (.node left right bbox, objs2)

/-- Embeds `BVHNode::new`. -/
def bvh_new (world : HittableList) (fuel : ℕ) : Option (BVHT × List Object) :=
  from_hittable_list fuel world.objects 0 world.objects.length

/-- Embeds `impl Hittable for BVHNode`, the `hit` method (a `leaf` child is a
primitive, whose own `hit` does not consult a bounding box). -/
def BVHT.hit : BVHT → RayF → IntervalF → Option HitRecordF
  | .leaf o, ray, interval => o.hit ray interval
  | .node left right bbox, ray, interval =>
    if !(bbox.hit ray interval) then none
    else
      let hit_left := left.hit ray interval
      let closest_so_far := match hit_left with
        | some rec => rec.t
        | none => interval.max
      let hit_right := right.hit ray (IntervalF.new interval.min closest_so_far)
      hit_right.or hit_left

/-- A `dyn Material` trait object for the integrator: its two methods
(`scatter` is deterministic here because the embedded integrator claim
is conditional on what `scatter` returns). -/
structure MatF where
  scatter : RayF → HitRecordF → Option (Vec3F × RayF)
  emitted : F → F → Vec3F → Vec3F

/-- The world seen by `Camera::ray_color`: an `impl Hittable` plus the
interpretation of the material ids stored in hit records (modelling the
`Arc<dyn Material>` references). -/
structure WorldF where
  hitf : RayF → IntervalF → Option HitRecordF
  mats : ℕ → MatF

/-- Embeds `camera.rs::Camera::ray_color` (`background` is the camera field the
method reads). -/
def ray_color (world : WorldF) (background : Vec3F) (ray : RayF)
    (depth : ℤ) : Vec3F :=
  if depth ≤ 0 then ⟨fin 0, fin 0, fin 0⟩
  else
    match world.hitf ray (IntervalF.new (fin (1 / 1000)) pinf) with
    | some record =>
      let mat := world.mats record.matId
      let color_from_emission := mat.emitted record.u record.v record.point
      match mat.scatter ray record with
      | some (attenuation, scattered_ray) =>
        color_from_emission.add
          (attenuation.mul (ray_color world background scattered_ray (depth - 1)))
      | none => color_from_emission
    | none => background
termination_by depth.toNat
decreasing_by
  simp only [not_le] at *
  omega

/-- Embeds `material.rs::Metal` (albedo and the stored fuzz). -/
structure MetalF where
  albedo : Vec3F
  fuzz : F

/-- Embeds `Metal::new`: stores `f64::min(fuzz, 1.0)`. -/
def Metal.new (albedo : Vec3F) (fuzz : F) : MetalF :=
  ⟨albedo, fmin fuzz (fin 1)⟩

/-- Rust `as u32` on an `f64`: rounds toward zero and saturates;
`nan` becomes 0. -/
def f64_as_u32 : F → ℕ
  | nan => 0
  | pinf => 4294967295
  | ninf => 0
  | fin q => if q < 0 then 0 else min 4294967295 ⌊q⌋.toNat

/-- The pixel-index computation of `texture.rs::ImageTexture::value`
(the part preceding `image.get_pixel(i, j)`), for an image of the given
width and height. -/
def imageTexturePixelIndex (width height : ℕ) (u v : F) : ℕ × ℕ :=
  let u' := (IntervalF.new (fin 0) (fin 1)).clamp u
  let v' := fsub (fin 1) ((IntervalF.new (fin 0) (fin 1)).clamp v)
  (f64_as_u32 (fmul u' (fin width)), f64_as_u32 (fmul v' (fin height)))

/-! The `ℝ`-modelled part of the code: `sphere.rs`, `color.rs`,
`vec3.rs::random_unit_vector` and `material.rs::Isotropic`. -/

/-- Embeds `vec3.rs::Vec3` over `ℝ`, for the `sqrt`-bearing geometry. -/
structure Vec3R where
  x : ℝ
  y : ℝ
  z : ℝ

namespace Vec3R

/-- Embeds `impl Add for Vec3`. -/
def add (a b : Vec3R) : Vec3R := ⟨a.x + b.x, a.y + b.y, a.z + b.z⟩

/-- Embeds `impl Sub for Vec3`. -/
def sub (a b : Vec3R) : Vec3R := ⟨a.x - b.x, a.y - b.y, a.z - b.z⟩

/-- Embeds `impl Neg for Vec3`. -/
def neg (a : Vec3R) : Vec3R := ⟨-a.x, -a.y, -a.z⟩

/-- Embeds `impl Mul<Vec3> for f64`. -/
def smul (s : ℝ) (a : Vec3R) : Vec3R := ⟨s * a.x, s * a.y, s * a.z⟩

/-- Embeds `impl Div<f64> for Vec3`. -/
noncomputable def divs (a : Vec3R) (s : ℝ) : Vec3R :=
  ⟨a.x / s, a.y / s, a.z / s⟩

/-- Embeds `Vec3::dot`. -/
def dot (a b : Vec3R) : ℝ := a.x * b.x + a.y * b.y + a.z * b.z

/-- Embeds `Vec3::length_squared`. -/
def length_squared (v : Vec3R) : ℝ := v.x * v.x + v.y * v.y + v.z * v.z

/-- Embeds `Vec3::length`. -/
noncomputable def length (v : Vec3R) : ℝ := Real.sqrt v.length_squared

/-- Embeds `Vec3::unit_vector`. -/
noncomputable def unit_vector (v : Vec3R) : Vec3R := v.divs v.length

end Vec3R

/-- Embeds `ray.rs::Ray` over `ℝ`. -/
structure RayR where
  origin : Vec3R
  direction : Vec3R
  time : ℝ

/-- Embeds `Ray::at`. -/
def RayR.at (r : RayR) (scalar : ℝ) : Vec3R :=
  r.origin.add (Vec3R.smul scalar r.direction)

/-- Embeds `interval.rs::Interval` over `ℝ`. -/
structure IntervalR where
  min : ℝ
  max : ℝ

namespace IntervalR

/-- Embeds `Interval::new`. -/
def new (min max : ℝ) : IntervalR := ⟨min, max⟩

/-- Embeds `Interval::surrounds`. -/
def surrounds (i : IntervalR) (x : ℝ) : Prop := i.min < x ∧ i.max > x

/-- Embeds `Interval::clamp`. -/
noncomputable def clamp (i : IntervalR) (x : ℝ) : ℝ :=
  if x < i.min then i.min else if x > i.max then i.max else x

/-- Embeds `Interval::size`. -/
def size (i : IntervalR) : ℝ := i.max - i.min

/-- Embeds `Interval::expand`. -/
noncomputable def expand (i : IntervalR) (delta : ℝ) : IntervalR :=
  ⟨i.min - delta / 2, i.max + delta / 2⟩

end IntervalR

/-- Embeds `aabb.rs::AABB` over `ℝ`. -/
structure AABBR where
  x : IntervalR
  y : IntervalR
  z : IntervalR

namespace AABBR

/-- Embeds `AABB::pad_to_minimum`. -/
noncomputable def pad_to_minimum (interval : IntervalR) : IntervalR :=
  if interval.size < 1 / 10000 then interval.expand (1 / 10000) else interval

/-- Embeds `AABB::new`. -/
noncomputable def new (x y z : IntervalR) : AABBR :=
  ⟨pad_to_minimum x, pad_to_minimum y, pad_to_minimum z⟩

/-- Embeds `AABB::from_extremes`. -/
noncomputable def from_extremes (a b : Vec3R) : AABBR :=
  new ⟨min a.x b.x, max a.x b.x⟩ ⟨min a.y b.y, max a.y b.y⟩
    ⟨min a.z b.z, max a.z b.z⟩

end AABBR

/-- Embeds `hittable.rs::HitRecord` over `ℝ`. -/
structure HitRecordR where
  point : Vec3R
  normal : Vec3R
  matId : ℕ
  t : ℝ
  u : ℝ
  v : ℝ
  front_face : Bool

open scoped Classical in
/-- Embeds `HitRecord::set_face_normal`. -/
noncomputable def HitRecordR.set_face_normal (rec : HitRecordR) (ray : RayR)
    (normal : Vec3R) : HitRecordR :=
  let ff : Bool := if ray.direction.dot normal < 0 then true else false
  { rec with front_face := ff, normal := if ff then normal else normal.neg }

/-- Embeds `f64::atan2` (`self = y`, `other = x`), in the standard
piecewise-arctangent form; `atan2(0, 0) = 0` as in IEEE for `+0.0`
arguments. -/
noncomputable def atan2R (y x : ℝ) : ℝ :=
  if x > 0 then Real.arctan (y / x)
  else if x < 0 then
    (if y ≥ 0 then Real.arctan (y / x) + Real.pi
     else Real.arctan (y / x) - Real.pi)
  else (if y > 0 then Real.pi / 2 else if y < 0 then -(Real.pi / 2) else 0)

/-- Embeds `sphere.rs::Sphere`. -/
structure SphereR where
  center : RayR
  radius : ℝ
  matId : ℕ
  bbox : AABBR

namespace SphereR

/-- Embeds `Sphere::stationary`. -/
noncomputable def stationary (center : Vec3R) (radius : ℝ) (matId : ℕ) :
    SphereR :=
  let rvec : Vec3R := ⟨radius, radius, radius⟩
  ⟨⟨center, ⟨0, 0, 0⟩, 0⟩, max radius 0, matId,
    AABBR.from_extremes (center.sub rvec) (center.add rvec)⟩

/-- Embeds `Sphere::get_sphere_uv`. -/
noncomputable def get_sphere_uv (point : Vec3R) : ℝ × ℝ :=
  let theta := Real.arccos (-point.y)
  let phi := atan2R (-point.z) point.x + Real.pi
  (phi / (2 * Real.pi), theta / Real.pi)

open scoped Classical in
/-- Embeds `impl Hittable for Sphere`, the `hit` method. -/
noncomputable def hit (self : SphereR) (ray : RayR) (interval : IntervalR) :
    Option HitRecordR :=
  let current_center := self.center.at ray.time
  let oc := current_center.sub ray.origin
  let a := ray.direction.length_squared
  let h := ray.direction.dot oc
  let c := oc.length_squared - self.radius * self.radius
  let discriminant := h * h - a * c
  if discriminant < 0 then none
  else
    let sqrtd := Real.sqrt discriminant
    let root1 := (h - sqrtd) / a
    let root := if ¬interval.surrounds root1 then (h + sqrtd) / a else root1
    if ¬interval.surrounds root then none
    else
      let t := root
      let point := ray.at t
      let normal := (point.sub current_center).divs self.radius
      let uv := get_sphere_uv normal
      let rec0 : HitRecordR :=
        ⟨point, normal, self.matId, t, uv.1, uv.2, false⟩
      some (rec0.set_face_normal ray normal)

end SphereR

/-- Embeds `color.rs::linear_to_gamma`. -/
noncomputable def linear_to_gamma (linear_component : ℝ) : ℝ :=
  if linear_component > 0 then Real.sqrt linear_component else 0

/-- Rust `as i16` on an `f64`: rounds toward zero and saturates. -/
noncomputable def f64_as_i16 (x : ℝ) : ℤ :=
  if x < -32768 then -32768
  else if x > 32767 then 32767
  else if 0 ≤ x then ⌊x⌋ else ⌈x⌉

/-- Embeds `color.rs::write_color`: the text written to the output stream for
one pixel. -/
noncomputable def write_color (pixel : Vec3R) : String :=
  let r := linear_to_gamma pixel.x
  let g := linear_to_gamma pixel.y
  let b := linear_to_gamma pixel.z
  let intensity := IntervalR.new 0 0.999
  let rbyte := f64_as_i16 (255.999 * intensity.clamp r)
  let gbyte := f64_as_i16 (255.999 * intensity.clamp g)
  let bbyte := f64_as_i16 (255.999 * intensity.clamp b)
  toString rbyte ++ " " ++ toString gbyte ++ " " ++ toString bbyte ++ "\n"

/-- Embeds `vec3.rs::Vec3::random`, fed by the stream of draws of
`rng.random_range(0.0..1.0)`; attempt number `i` consumes draws
`3*i, 3*i+1, 3*i+2`. -/
def vec3_random (s : ℕ → ℝ) (i : ℕ) : Vec3R :=
  ⟨s (3 * i), s (3 * i + 1), s (3 * i + 2)⟩

open scoped Classical in
/-- The `loop` of `vec3.rs::Vec3::random_unit_vector`, with explicit
fuel: `none` models an execution that never leaves the loop within
`fuel` iterations. -/
noncomputable def random_unit_vector_loop (s : ℕ → ℝ) :
    ℕ → ℕ → Option Vec3R
  | _, 0 => none
  | i, fuel + 1 =>
    let candidate := vec3_random s i
    let length := candidate.length_squared
    if 1e-160 < length ∧ length ≤ 1 then
      some (candidate.divs (Real.sqrt length))
    else random_unit_vector_loop s (i + 1) fuel

/-- Embeds `Vec3::random_unit_vector`. -/
noncomputable def random_unit_vector (s : ℕ → ℝ) (fuel : ℕ) :
    Option Vec3R :=
  random_unit_vector_loop s 0 fuel

/-- Embeds `material.rs::Isotropic::scatter`, for a texture
`tex : (u, v, point) → color` (`Texture::value`) and a random stream.
`none` models only the case in which `random_unit_vector` never
terminates. -/
noncomputable def isotropic_scatter (tex : ℝ → ℝ → Vec3R → Vec3R)
    (s : ℕ → ℝ) (fuel : ℕ) (ray_in : RayR) (record : HitRecordR) :
    Option (Vec3R × RayR) :=
  (random_unit_vector s fuel).map fun dir =>
    (tex record.u record.v record.point, ⟨record.point, dir, ray_in.time⟩)


/-! Concrete fixtures used by the claims below. -/

/-- The unit quad in the `z = 0` plane: `Q = (0,0,0)`, `u = (1,0,0)`,
`v = (0,1,0)`. -/
def cQuad : QuadF :=
  QuadF.new ⟨fin 0, fin 0, fin 0⟩ ⟨fin 1, fin 0, fin 0⟩ ⟨fin 0, fin 1, fin 0⟩ 0

/-- A world holding just `cQuad`. -/
def cWorld : HittableList := HittableList.new.add cQuad.toObject

/-- A ray with origin `(0, 1/2, 1)` and direction `(0, 0, -1)`: it is
parallel to the `x` axis slab of `cQuad`'s bounding box and meets the
quad on its `alpha = 0` edge. -/
def cRay : RayF := ⟨⟨fin 0, fin (1 / 2), fin 1⟩, ⟨fin 0, fin 0, fin (-1)⟩, fin 0⟩

/-- The query interval `(0.001, +inf)` used by the integrator. -/
def cI : IntervalF := ⟨fin (1 / 1000), pinf⟩

/-- The bounding box of `cQuad` (the `z` axis padded to the minimum
thickness). -/
def cBox : AABBF :=
  ⟨⟨fin 0, fin 1⟩, ⟨fin 0, fin 1⟩, ⟨fin (-1 / 20000), fin (1 / 20000)⟩⟩

/-- A world whose `hit` always misses and whose materials are inert;
used to instantiate the integrator theorem. -/
def wMiss : WorldF :=
  ⟨fun _ _ => none, fun _ => ⟨fun _ _ => none, fun _ _ _ => ⟨fin 0, fin 0, fin 0⟩⟩⟩

/-- The axis-aligned box `[0,1]^3`. -/
def boxA : AABBF := ⟨⟨fin 0, fin 1⟩, ⟨fin 0, fin 1⟩, ⟨fin 0, fin 1⟩⟩

/-- The axis-aligned box `[2,3]^3`. -/
def boxB : AABBF := ⟨⟨fin 2, fin 3⟩, ⟨fin 2, fin 3⟩, ⟨fin 2, fin 3⟩⟩

/-- The axis-aligned box `[-1,5]^3`. -/
def boxC : AABBF := ⟨⟨fin (-1), fin 5⟩, ⟨fin (-1), fin 5⟩, ⟨fin (-1), fin 5⟩⟩

/-- An object whose bounding box is `[0,1]^3` (its `hit` is never
queried by the claims that use it). -/
def cObj : Object := ⟨boxA, fun _ _ => none⟩

/-- A mutating operation on a `HittableList`: `add(object)` or
`clear()`. -/
inductive ListOp where
  | add : Object → ListOp
  | clear : ListOp

/-- Run a sequence of operations starting from `HittableList::new()`. -/
def applyOps (ops : List ListOp) : HittableList :=
  ops.foldl
    (fun l op => match op with
      | ListOp.add o => l.add o
      | ListOp.clear => l.clear)
    HittableList.new

/-- The bounding boxes of the objects added by a sequence of
operations. -/
def opsBoxes (ops : List ListOp) : List AABBF :=
  ops.filterMap fun op => match op with
    | ListOp.add o => some o.bounding_box
    | ListOp.clear => none

/-- The union, in order, of a list of boxes starting from the empty
box (how `HittableList::add` accumulates its cached box). -/
def unionOfBoxes (l : List AABBF) : AABBF := l.foldl AABBF.union AABBF.empty

/-! ## Theorems -/

namespace F

/-! Evaluation lemmas for the `F` operations on constructors, so that
concrete runs of the embedded code reduce by `simp`. -/

@[simp] theorem fneg_nan : fneg nan = nan := rfl
@[simp] theorem fneg_pinf : fneg pinf = ninf := rfl
@[simp] theorem fneg_ninf : fneg ninf = pinf := rfl
@[simp] theorem fneg_fin (q : ℚ) : fneg (fin q) = fin (-q) := rfl

@[simp] theorem fadd_nan_left (b : F) : fadd nan b = nan := by
  cases b <;> rfl
@[simp] theorem fadd_nan_right (a : F) : fadd a nan = nan := by
  cases a <;> rfl
@[simp] theorem fadd_pinf_pinf : fadd pinf pinf = pinf := rfl
@[simp] theorem fadd_pinf_ninf : fadd pinf ninf = nan := rfl
@[simp] theorem fadd_ninf_pinf : fadd ninf pinf = nan := rfl
@[simp] theorem fadd_ninf_ninf : fadd ninf ninf = ninf := rfl
@[simp] theorem fadd_pinf_fin (b : ℚ) : fadd pinf (fin b) = pinf := rfl
@[simp] theorem fadd_fin_pinf (a : ℚ) : fadd (fin a) pinf = pinf := rfl
@[simp] theorem fadd_ninf_fin (b : ℚ) : fadd ninf (fin b) = ninf := rfl
@[simp] theorem fadd_fin_ninf (a : ℚ) : fadd (fin a) ninf = ninf := rfl
@[simp] theorem fadd_fin_fin (a b : ℚ) : fadd (fin a) (fin b) = fin (a + b) :=
  rfl

@[simp] theorem fmul_nan_left (b : F) : fmul nan b = nan := by
  cases b <;> rfl
@[simp] theorem fmul_nan_right (a : F) : fmul a nan = nan := by
  cases a <;> rfl
@[simp] theorem fmul_pinf_pinf : fmul pinf pinf = pinf := rfl
@[simp] theorem fmul_pinf_ninf : fmul pinf ninf = ninf := rfl
@[simp] theorem fmul_ninf_pinf : fmul ninf pinf = ninf := rfl
@[simp] theorem fmul_ninf_ninf : fmul ninf ninf = pinf := rfl
@[simp] theorem fmul_pinf_fin (b : ℚ) :
    fmul pinf (fin b) = if b > 0 then pinf else if b < 0 then ninf else nan :=
  rfl
@[simp] theorem fmul_ninf_fin (b : ℚ) :
    fmul ninf (fin b) = if b > 0 then ninf else if b < 0 then pinf else nan :=
  rfl
@[simp] theorem fmul_fin_pinf (a : ℚ) :
    fmul (fin a) pinf = if a > 0 then pinf else if a < 0 then ninf else nan :=
  rfl
@[simp] theorem fmul_fin_ninf (a : ℚ) :
    fmul (fin a) ninf = if a > 0 then ninf else if a < 0 then pinf else nan :=
  rfl
@[simp] theorem fmul_fin_fin (a b : ℚ) : fmul (fin a) (fin b) = fin (a * b) :=
  rfl

@[simp] theorem fdiv_nan_left (b : F) : fdiv nan b = nan := by
  cases b <;> rfl
@[simp] theorem fdiv_nan_right (a : F) : fdiv a nan = nan := by
  cases a <;> rfl
@[simp] theorem fdiv_pinf_pinf : fdiv pinf pinf = nan := rfl
@[simp] theorem fdiv_pinf_ninf : fdiv pinf ninf = nan := rfl
@[simp] theorem fdiv_ninf_pinf : fdiv ninf pinf = nan := rfl
@[simp] theorem fdiv_ninf_ninf : fdiv ninf ninf = nan := rfl
@[simp] theorem fdiv_pinf_fin (b : ℚ) :
    fdiv pinf (fin b) = if b ≥ 0 then pinf else ninf := rfl
@[simp] theorem fdiv_ninf_fin (b : ℚ) :
    fdiv ninf (fin b) = if b ≥ 0 then ninf else pinf := rfl
@[simp] theorem fdiv_fin_pinf (a : ℚ) : fdiv (fin a) pinf = fin 0 := rfl
@[simp] theorem fdiv_fin_ninf (a : ℚ) : fdiv (fin a) ninf = fin 0 := rfl
@[simp] theorem fdiv_fin_fin (a b : ℚ) :
    fdiv (fin a) (fin b) =
      if b = 0 then (if a > 0 then pinf else if a < 0 then ninf else nan)
      else fin (a / b) := rfl

@[simp] theorem fle_nan_left (b : F) : fle nan b = false := by
  cases b <;> rfl
@[simp] theorem fle_nan_right (a : F) : fle a nan = false := by
  cases a <;> rfl
@[simp] theorem fle_ninf_pinf : fle ninf pinf = true := rfl
@[simp] theorem fle_ninf_ninf : fle ninf ninf = true := rfl
@[simp] theorem fle_ninf_fin (b : ℚ) : fle ninf (fin b) = true := rfl
@[simp] theorem fle_pinf_pinf : fle pinf pinf = true := rfl
@[simp] theorem fle_fin_pinf (a : ℚ) : fle (fin a) pinf = true := rfl
@[simp] theorem fle_pinf_ninf : fle pinf ninf = false := rfl
@[simp] theorem fle_pinf_fin (b : ℚ) : fle pinf (fin b) = false := rfl
@[simp] theorem fle_fin_ninf (a : ℚ) : fle (fin a) ninf = false := rfl
@[simp] theorem fle_fin_fin (a b : ℚ) : fle (fin a) (fin b) = decide (a ≤ b) :=
  rfl

@[simp] theorem flt_nan_left (b : F) : flt nan b = false := by
  cases b <;> rfl
@[simp] theorem flt_nan_right (a : F) : flt a nan = false := by
  cases a <;> rfl
@[simp] theorem flt_ninf_pinf : flt ninf pinf = true := rfl
@[simp] theorem flt_ninf_ninf : flt ninf ninf = false := rfl
@[simp] theorem flt_ninf_fin (b : ℚ) : flt ninf (fin b) = true := rfl
@[simp] theorem flt_pinf_pinf : flt pinf pinf = false := rfl
@[simp] theorem flt_fin_pinf (a : ℚ) : flt (fin a) pinf = true := rfl
@[simp] theorem flt_pinf_ninf : flt pinf ninf = false := rfl
@[simp] theorem flt_pinf_fin (b : ℚ) : flt pinf (fin b) = false := rfl
@[simp] theorem flt_fin_ninf (a : ℚ) : flt (fin a) ninf = false := rfl
@[simp] theorem flt_fin_fin (a b : ℚ) : flt (fin a) (fin b) = decide (a < b) :=
  rfl

@[simp] theorem fmin_nan_left (b : F) : fmin nan b = b := by
  cases b <;> rfl
@[simp] theorem fmin_nan_right (a : F) : fmin a nan = a := by
  cases a <;> rfl
@[simp] theorem fmin_ninf_left (b : F) : fmin ninf b = ninf := by
  cases b <;> rfl
@[simp] theorem fmin_pinf_ninf : fmin pinf ninf = ninf := rfl
@[simp] theorem fmin_fin_ninf (a : ℚ) : fmin (fin a) ninf = ninf := rfl
@[simp] theorem fmin_pinf_pinf : fmin pinf pinf = pinf := rfl
@[simp] theorem fmin_pinf_fin (b : ℚ) : fmin pinf (fin b) = fin b := rfl
@[simp] theorem fmin_fin_pinf (a : ℚ) : fmin (fin a) pinf = fin a := rfl
@[simp] theorem fmin_fin_fin (a b : ℚ) :
    fmin (fin a) (fin b) = fin (min a b) := rfl

@[simp] theorem fmax_nan_left (b : F) : fmax nan b = b := by
  cases b <;> rfl
@[simp] theorem fmax_nan_right (a : F) : fmax a nan = a := by
  cases a <;> rfl
@[simp] theorem fmax_pinf_left (b : F) : fmax pinf b = pinf := by
  cases b <;> rfl
@[simp] theorem fmax_ninf_pinf : fmax ninf pinf = pinf := rfl
@[simp] theorem fmax_fin_pinf (a : ℚ) : fmax (fin a) pinf = pinf := rfl
@[simp] theorem fmax_ninf_ninf : fmax ninf ninf = ninf := rfl
@[simp] theorem fmax_ninf_fin (b : ℚ) : fmax ninf (fin b) = fin b := rfl
@[simp] theorem fmax_fin_ninf (a : ℚ) : fmax (fin a) ninf = fin a := rfl
@[simp] theorem fmax_fin_fin (a b : ℚ) :
    fmax (fin a) (fin b) = fin (max a b) := rfl

@[simp] theorem fabs_nan : fabs nan = nan := rfl
@[simp] theorem fabs_pinf : fabs pinf = pinf := rfl
@[simp] theorem fabs_ninf : fabs ninf = pinf := rfl
@[simp] theorem fabs_fin (q : ℚ) : fabs (fin q) = fin |q| := rfl

@[simp] theorem fsqrt_nan : fsqrt nan = nan := rfl
@[simp] theorem fsqrt_pinf : fsqrt pinf = pinf := rfl
@[simp] theorem fsqrt_ninf : fsqrt ninf = nan := rfl
@[simp] theorem fsqrt_fin (q : ℚ) :
    fsqrt (fin q) = if q < 0 then nan else fin (ratSqrt q) := rfl

/-! Order and lattice facts about `fmin`, `fmax`, `fle`. -/

theorem fmin_comm (a b : F) : fmin a b = fmin b a := by
  cases a <;> cases b <;> simp [min_comm]

theorem fmax_comm (a b : F) : fmax a b = fmax b a := by
  cases a <;> cases b <;> simp [max_comm]

theorem fmin_assoc (a b c : F) : fmin (fmin a b) c = fmin a (fmin b c) := by
  cases a <;> cases b <;> cases c <;> simp [min_assoc]

theorem fmax_assoc (a b c : F) : fmax (fmax a b) c = fmax a (fmax b c) := by
  cases a <;> cases b <;> cases c <;> simp [max_assoc]

theorem fle_fmin_left {a t : F} (h : fle a t = true) (b : F) :
    fle (fmin a b) t = true := by
  cases a <;> cases b <;> cases t <;> simp_all [min_le_iff]

theorem fle_fmax_left {a t : F} (h : fle t a = true) (b : F) :
    fle t (fmax a b) = true := by
  cases a <;> cases b <;> cases t <;> simp_all [le_max_iff]

end F

/-- The model of `Interval::from_intervals` keeps every point of its
left argument. -/
theorem contains_from_intervals_left {i : IntervalF} (j : IntervalF) {t : F}
    (h : i.contains t = true) :
    (IntervalF.from_intervals i j).contains t = true := by
  simp only [IntervalF.contains, Bool.and_eq_true] at h ⊢
  exact ⟨fle_fmin_left h.1 _, fle_fmax_left h.2 _⟩

/-- The model of `Interval::from_intervals` keeps every point of its
right argument. -/
theorem contains_from_intervals_right (i : IntervalF) {j : IntervalF} {t : F}
    (h : j.contains t = true) :
    (IntervalF.from_intervals i j).contains t = true := by
  simp only [IntervalF.contains, Bool.and_eq_true] at h ⊢
  rw [IntervalF.from_intervals, fmin_comm, fmax_comm]
  exact ⟨fle_fmin_left h.1 _, fle_fmax_left h.2 _⟩

/-- C7.  `AABB::union` is commutative and associative (componentwise
equality of the three axis intervals), and the union of two boxes fully
contains both: any coordinate contained in an axis interval of either
argument is contained in the corresponding axis interval of the
union. -/
theorem aabb_union_comm_assoc_contains :
    (∀ a b : AABBF, a.union b = b.union a) ∧
    (∀ a b c : AABBF, (a.union b).union c = a.union (b.union c)) ∧
    (∀ (a b : AABBF) (t : F),
      ((a.x.contains t = true ∨ b.x.contains t = true) →
        (a.union b).x.contains t = true) ∧
      ((a.y.contains t = true ∨ b.y.contains t = true) →
        (a.union b).y.contains t = true) ∧
      ((a.z.contains t = true ∨ b.z.contains t = true) →
        (a.union b).z.contains t = true)) := by
  refine ⟨fun a b => ?_, fun a b c => ?_, fun a b t => ⟨?_, ?_, ?_⟩⟩
  · simp only [AABBF.union, IntervalF.from_intervals]
    rw [fmin_comm a.x.min, fmax_comm a.x.max, fmin_comm a.y.min,
      fmax_comm a.y.max, fmin_comm a.z.min, fmax_comm a.z.max]
  · simp only [AABBF.union, IntervalF.from_intervals]
    rw [fmin_assoc, fmax_assoc, fmin_assoc, fmax_assoc, fmin_assoc,
      fmax_assoc]
  · rintro (h | h)
    · exact contains_from_intervals_left _ h
    · exact contains_from_intervals_right _ h
  · rintro (h | h)
    · exact contains_from_intervals_left _ h
    · exact contains_from_intervals_right _ h
  · rintro (h | h)
    · exact contains_from_intervals_left _ h
    · exact contains_from_intervals_right _ h

/-- C7 (witness): the union theorem applied to the concrete boxes
`[0,1]^3`, `[2,3]^3`, `[-1,5]^3` and the coordinate `5/2` (contained in
`boxB`'s `x`-interval, hence in the union's). -/
theorem aabb_union_comm_assoc_contains_witness :
    boxA.union boxB = boxB.union boxA ∧
    (boxA.union boxB).union boxC = boxA.union (boxB.union boxC) ∧
    (boxA.union boxB).x.contains (fin (5 / 2)) = true :=
  ⟨aabb_union_comm_assoc_contains.1 boxA boxB,
   aabb_union_comm_assoc_contains.2.1 boxA boxB boxC,
   (aabb_union_comm_assoc_contains.2.2 boxA boxB (fin (5 / 2))).1
     (Or.inr (by norm_num [boxB, IntervalF.contains]))⟩

/-- C4.  `Camera::ray_color` returns black once the depth budget is
exhausted; otherwise it intersects the world over `(0.001, +inf)`, and
returns the background on a miss, `emitted + attenuation *
ray_color(scattered, depth - 1)` on a hit whose material scatters, and
`emitted` alone on a hit whose material does not scatter. -/
theorem ray_color_spec (w : WorldF) (bg : Vec3F) (ray : RayF) (depth : ℤ) :
    (depth ≤ 0 → ray_color w bg ray depth = ⟨fin 0, fin 0, fin 0⟩) ∧
    (0 < depth →
      (w.hitf ray (IntervalF.new (fin (1 / 1000)) pinf) = none →
        ray_color w bg ray depth = bg) ∧
      (∀ record,
        w.hitf ray (IntervalF.new (fin (1 / 1000)) pinf) = some record →
        (∀ attenuation scattered,
          (w.mats record.matId).scatter ray record =
              some (attenuation, scattered) →
          ray_color w bg ray depth =
            ((w.mats record.matId).emitted record.u record.v
                record.point).add
              (attenuation.mul (ray_color w bg scattered (depth - 1)))) ∧
        ((w.mats record.matId).scatter ray record = none →
          ray_color w bg ray depth =
            (w.mats record.matId).emitted record.u record.v
              record.point))) := by
  constructor
  · intro h
    rw [ray_color]
    simp [h]
  · intro hpos
    have hne : ¬depth ≤ 0 := by omega
    refine ⟨fun hm => ?_, fun record hr => ⟨fun att scat hs => ?_, fun hs => ?_⟩⟩
    · rw [ray_color, if_neg hne]
      simp only [hm]
    · rw [ray_color, if_neg hne]
      simp only [hr, hs]
    · rw [ray_color, if_neg hne]
      simp only [hr, hs]

/-- C4 (witness): the integrator theorem applied to the always-missing
world: depth 0 yields black, and depth 5 yields the background. -/
theorem ray_color_spec_witness :
    ray_color wMiss ⟨fin 1, fin 2, fin 3⟩
        ⟨⟨fin 0, fin 0, fin 0⟩, ⟨fin 0, fin 0, fin 1⟩, fin 0⟩ 0 =
      ⟨fin 0, fin 0, fin 0⟩ ∧
    ray_color wMiss ⟨fin 1, fin 2, fin 3⟩
        ⟨⟨fin 0, fin 0, fin 0⟩, ⟨fin 0, fin 0, fin 1⟩, fin 0⟩ 5 =
      ⟨fin 1, fin 2, fin 3⟩ :=
  ⟨(ray_color_spec wMiss ⟨fin 1, fin 2, fin 3⟩
      ⟨⟨fin 0, fin 0, fin 0⟩, ⟨fin 0, fin 0, fin 1⟩, fin 0⟩ 0).1 (by norm_num),
   ((ray_color_spec wMiss ⟨fin 1, fin 2, fin 3⟩
      ⟨⟨fin 0, fin 0, fin 0⟩, ⟨fin 0, fin 0, fin 1⟩, fin 0⟩ 5).2
     (by norm_num)).1 rfl⟩

/-- The padded bounding box of `cQuad` evaluates to `cBox`. -/
theorem cQuad_bbox : cQuad.bbox = cBox := by
  norm_num [cQuad, cBox, QuadF.new, QuadF.set_bounding_box,
    AABBF.from_extremes, AABBF.new, AABBF.union, AABBF.pad_to_minimum,
    IntervalF.from_intervals, IntervalF.size, IntervalF.expand,
    IntervalF.new, Vec3F.add, fsub]

/-- Building a BVH over the one-object world duplicates the object into
both children under the folded bounding box. -/
theorem bvh_new_cWorld : bvh_new cWorld 1 =
    some (.node (.leaf cQuad.toObject) (.leaf cQuad.toObject)
      (AABBF.union AABBF.empty cBox), [cQuad.toObject]) := by
  have hbb : cQuad.toObject.bounding_box = cBox := cQuad_bbox
  simp only [bvh_new, cWorld, HittableList.new, HittableList.add,
    from_hittable_list, List.length, List.range', List.foldl, objAt,
    List.getD, List.get?, hbb, List.nil_append, Option.getD_some]

/-- Folding `cBox` into the empty box gives `cBox` back. -/
theorem union_empty_cBox : AABBF.union AABBF.empty cBox = cBox := by
  norm_num [AABBF.union, AABBF.empty, IntervalF.empty, cBox,
    IntervalF.from_intervals]

/-- The slab test rejects `cRay` against `cBox`: on the `x` axis the
ray's direction is `0` and its origin sits exactly on the slab, so
`t0 = 0/0 = nan` and `t1 = 1/0 = +inf`; Rust's `min`/`max` discard the
`nan`, the clipped window becomes `[+inf, +inf]`, and `t_max <= t_min`
holds. -/
theorem slab_rejects_cRay : AABBF.hit cBox cRay cI = false := by
  norm_num [AABBF.hit, AABBF.hit_axis, cBox, cRay, cI, fsub]

/-- C1.  The linear scan of the one-quad world finds a hit for `cRay`
at `t = 1` with hit point `(0, 1/2, 0)`, but the BVH built from the
same world returns no hit for the same ray and the same query interval:
its bounding-box slab test wrongly rejects the ray.  The two
traversals differ outright (hit versus miss), not merely by a floating
tolerance. -/
theorem bvh_misses_hit_found_by_linear_scan :
    (cWorld.hit cRay cI).map (fun r => (r.t, r.point)) =
      some (fin 1, ⟨fin 0, fin (1 / 2), fin 0⟩) ∧
    (bvh_new cWorld 1).map (fun p => p.1.hit cRay cI) = some none := by
  constructor
  · norm_num [cWorld, cQuad, cRay, cI, HittableList.new, HittableList.add,
      HittableList.hit, HittableList.hit_fold, QuadF.new, QuadF.toObject,
      QuadF.hit, QuadF.set_bounding_box, AABBF.from_extremes, AABBF.new,
      AABBF.union, AABBF.pad_to_minimum, AABBF.empty, IntervalF.empty,
      IntervalF.new, IntervalF.from_intervals, IntervalF.size,
      IntervalF.contains, IntervalF.expand, Vec3F.cross, Vec3F.dot,
      Vec3F.unit_vector, Vec3F.length, Vec3F.length_squared, Vec3F.divs,
      Vec3F.add, Vec3F.sub, Vec3F.neg, Vec3F.smul, RayF.at,
      HitRecordF.set_face_normal, fsub, ratSqrt, Nat.findGreatest]
  · rw [bvh_new_cWorld, union_empty_cBox]
    simp [BVHT.hit, slab_rejects_cRay]

/-- C6 (counterexample).  `Metal::new` with fuzz argument `-1` stores
fuzz `-1`: the stored value is not `≥ 0`, refuting the claim that the
stored fuzz is clamped into `[0, 1]` for negative arguments. -/
theorem metal_new_negative_fuzz_not_clamped :
    (Metal.new ⟨fin 1, fin 1, fin 1⟩ (fin (-1))).fuzz = fin (-1) ∧
      fle (fin 0) (Metal.new ⟨fin 1, fin 1, fin 1⟩ (fin (-1))).fuzz = false := by
  constructor
  · show fmin (fin (-1)) (fin 1) = fin (-1)
    norm_num
  · show fle (fin 0) (fmin (fin (-1)) (fin 1)) = false
    norm_num

/-- C6 (amended).  For every fuzz argument, `Metal::new` stores
`f64::min(fuzz, 1.0)`: the stored fuzz is at most 1, but a negative
argument is stored unchanged (there is no lower clamp). -/
theorem metal_new_fuzz_min_one (albedo : Vec3F) (fuzz : F) :
    (Metal.new albedo fuzz).fuzz = fmin fuzz (fin 1) ∧
      fle (Metal.new albedo fuzz).fuzz (fin 1) = true := by
  refine ⟨rfl, ?_⟩
  show fle (fmin fuzz (fin 1)) (fin 1) = true
  cases fuzz <;> simp [min_le_iff]

/-- C8.  `BVHNode::from_hittable_list` on the empty range never reaches
a terminal case: a span of 0 falls into the recursive branch with
`mid = start`, so no recursion depth suffices (the Rust code recurses
forever on an empty `HittableList`). -/
theorem from_hittable_list_empty_diverges (fuel : ℕ) :
    from_hittable_list fuel ([] : List Object) 0 0 = none := by
  induction fuel with
  | zero => rfl
  | succ n ih =>
    rw [from_hittable_list]
    simp [sortRange, sortLe, ih]

/-- C9.  On a 2x2 image, `ImageTexture::value` at the boundary texture
coordinates `u = 1`, `v = 0` computes pixel indices `i = 2`, `j = 2`,
which are not inside the image (`i < width` and `j < height` both
fail); `image.get_pixel(i, j)` panics there. -/
theorem imageTexture_index_out_of_bounds :
    imageTexturePixelIndex 2 2 (fin 1) (fin 0) = (2, 2) ∧
      ((imageTexturePixelIndex 2 2 (fin 1) (fin 0)).1 < 2 ∧
        (imageTexturePixelIndex 2 2 (fin 1) (fin 0)).2 < 2) = False := by
  have h : imageTexturePixelIndex 2 2 (fin 1) (fin 0) = (2, 2) := by
    norm_num [imageTexturePixelIndex, IntervalF.new, IntervalF.clamp, fsub,
      f64_as_u32]
    rfl
  refine ⟨h, eq_false ?_⟩
  rw [h]
  norm_num

/-- The cached box after a fold of `add`s over an arbitrary starting
list accumulates by `AABB::union`. -/
theorem applyOps_bbox (ops : List ListOp) (l : HittableList) :
    (ops.foldl
        (fun l op => match op with
          | ListOp.add o => l.add o
          | ListOp.clear => l.clear)
        l).bbox = (opsBoxes ops).foldl AABBF.union l.bbox := by
  induction ops generalizing l with
  | nil => rfl
  | cons op rest ih =>
    cases op with
    | add o =>
      simp only [List.foldl_cons]
      rw [ih (l.add o)]
      simp [opsBoxes, HittableList.add]
    | clear =>
      simp only [List.foldl_cons]
      rw [ih l.clear]
      simp [opsBoxes, HittableList.clear]

/-- Objects after a fold of `add`s are appended in order. -/
theorem foldl_add_objects (objs : List Object) (l : HittableList) :
    (objs.foldl HittableList.add l).objects = l.objects ++ objs := by
  induction objs generalizing l with
  | nil => simp
  | cons o rest ih => simp [ih, HittableList.add]

/-- The cached box after a fold of `add`s. -/
theorem foldl_add_bbox (objs : List Object) (l : HittableList) :
    (objs.foldl HittableList.add l).bbox =
      (objs.map Object.bounding_box).foldl AABBF.union l.bbox := by
  induction objs generalizing l with
  | nil => rfl
  | cons o rest ih => simp [ih, HittableList.add]

/-- C10 (counterexample).  After `new(); add(cObj); clear()` the list
holds no objects, but the cached bounding box is still `cObj`'s box,
not the union (the empty box) of the boxes of the objects currently in
the list: `clear` empties `objects` without resetting `bbox`. -/
theorem hittable_list_clear_stale_bbox :
    (applyOps [ListOp.add cObj, ListOp.clear]).objects = [] ∧
      ((applyOps [ListOp.add cObj, ListOp.clear]).bbox =
        unionOfBoxes ((applyOps [ListOp.add cObj, ListOp.clear]).objects.map
          Object.bounding_box)) = False := by
  refine ⟨rfl, eq_false ?_⟩
  show AABBF.union AABBF.empty cObj.bounding_box ≠ AABBF.empty
  simp [AABBF.union, AABBF.empty, IntervalF.empty, cObj, boxA,
    IntervalF.from_intervals]

/-- C10 (amended).  After any sequence of `new`, `add` and `clear`
operations the cached bounding box equals the union of the boxes of
*all objects added since `new`* (`clear` removes the objects but leaves
the cached box unchanged); in particular, for `add`-only sequences it
is the union of the boxes of the objects currently in the list (the
empty box when nothing was added). -/
theorem hittable_list_bbox_invariant :
    (∀ ops : List ListOp,
      (applyOps ops).bbox = unionOfBoxes (opsBoxes ops)) ∧
    (∀ objs : List Object,
      (objs.foldl HittableList.add HittableList.new).objects = objs ∧
      (objs.foldl HittableList.add HittableList.new).bbox =
        unionOfBoxes (objs.map Object.bounding_box)) := by
  refine ⟨fun ops => ?_, fun objs => ⟨?_, ?_⟩⟩
  · exact applyOps_bbox ops HittableList.new
  · simp [foldl_add_objects, HittableList.new]
  · exact foldl_add_bbox objs HittableList.new

/-- One output channel of `write_color`: if `c` is a positive linear
component whose gamma value `sqrt c` stays inside the intensity
interval and lands in `[n/255.999, (n+1)/255.999)`, the emitted byte is
`n`. -/
theorem gamma_byte {c : ℝ} (n : ℤ) (h0 : 0 < c) (hc : c ≤ 0.998001)
    (hn : 0 ≤ n) (hnsmall : (n : ℝ) + 1 ≤ 32767)
    (hlo : ((n : ℝ) / 255.999) ^ 2 ≤ c)
    (hhi : c < (((n : ℝ) + 1) / 255.999) ^ 2) :
    f64_as_i16 (255.999 * (IntervalR.new 0 0.999).clamp
      (linear_to_gamma c)) = n := by
  have hs0 : (0 : ℝ) ≤ Real.sqrt c := Real.sqrt_nonneg c
  have hgamma : linear_to_gamma c = Real.sqrt c := if_pos h0
  have hclamp : (IntervalR.new 0 0.999).clamp (Real.sqrt c) = Real.sqrt c := by
    have h999 : Real.sqrt c ≤ 0.999 :=
      Real.sqrt_le_iff.mpr ⟨by norm_num, by nlinarith⟩
    rw [IntervalR.clamp]
    rw [if_neg (by simp [IntervalR.new, not_lt, hs0]),
      if_neg (by simp [IntervalR.new, not_lt, h999])]
  have hn' : (0 : ℝ) ≤ (n : ℝ) := by exact_mod_cast hn
  have hlow : (n : ℝ) ≤ 255.999 * Real.sqrt c := by
    have h' : (n : ℝ) / 255.999 ≤ Real.sqrt c :=
      (Real.le_sqrt (by positivity) h0.le).mpr hlo
    have h'' := (div_le_iff₀ (show (0 : ℝ) < 255.999 by norm_num)).mp h'
    linarith
  have hhigh : 255.999 * Real.sqrt c < (n : ℝ) + 1 := by
    have h' : Real.sqrt c < ((n : ℝ) + 1) / 255.999 :=
      (Real.sqrt_lt' (by positivity)).mpr hhi
    have h'' := (lt_div_iff₀ (show (0 : ℝ) < 255.999 by norm_num)).mp h'
    linarith
  rw [hgamma, hclamp, f64_as_i16]
  rw [if_neg (by linarith), if_neg (by linarith), if_pos (by positivity)]
  rw [Int.floor_eq_iff]
  exact ⟨hlow, hhigh⟩

/-- C3 (amended).  Serializing the linear color `(0.5, 0.7, 0.9)`
through `write_color` — gamma by square root of positive components,
clamping to `[0, 0.999]`, scaling by `255.999` and truncating —
produces exactly the text `"181 214 242\n"`. -/
theorem write_color_half_seven_nine :
    write_color ⟨0.5, 0.7, 0.9⟩ = "181 214 242\n" := by
  have h1 : f64_as_i16 (255.999 * (IntervalR.new 0 0.999).clamp
      (linear_to_gamma (0.5 : ℝ))) = 181 :=
    gamma_byte 181 (by norm_num) (by norm_num) (by norm_num) (by norm_num)
      (by norm_num) (by norm_num)
  have h2 : f64_as_i16 (255.999 * (IntervalR.new 0 0.999).clamp
      (linear_to_gamma (0.7 : ℝ))) = 214 :=
    gamma_byte 214 (by norm_num) (by norm_num) (by norm_num) (by norm_num)
      (by norm_num) (by norm_num)
  have h3 : f64_as_i16 (255.999 * (IntervalR.new 0 0.999).clamp
      (linear_to_gamma (0.9 : ℝ))) = 242 :=
    gamma_byte 242 (by norm_num) (by norm_num) (by norm_num) (by norm_num)
      (by norm_num) (by norm_num)
  simp only [write_color]
  rw [h1, h2, h3]
  decide

/-- C3 (counterexample).  `write_color` on `(0.5, 0.7, 0.9)` does not
produce `"127 179 230\n"`: that fixture is the encoding *without* the
square-root gamma step (`127 = floor(255.999 * 0.5)` and so on), and
the repository's own `test_write_color`, which expects it, fails
against `write_color`. -/
theorem write_color_fixture_refuted :
    (write_color ⟨0.5, 0.7, 0.9⟩ = "127 179 230\n") = False := by
  apply eq_false
  have h1 : f64_as_i16 (255.999 * (IntervalR.new 0 0.999).clamp
      (linear_to_gamma (0.5 : ℝ))) = 181 :=
    gamma_byte 181 (by norm_num) (by norm_num) (by norm_num) (by norm_num)
      (by norm_num) (by norm_num)
  have h2 : f64_as_i16 (255.999 * (IntervalR.new 0 0.999).clamp
      (linear_to_gamma (0.7 : ℝ))) = 214 :=
    gamma_byte 214 (by norm_num) (by norm_num) (by norm_num) (by norm_num)
      (by norm_num) (by norm_num)
  have h3 : f64_as_i16 (255.999 * (IntervalR.new 0 0.999).clamp
      (linear_to_gamma (0.9 : ℝ))) = 242 :=
    gamma_byte 242 (by norm_num) (by norm_num) (by norm_num) (by norm_num)
      (by norm_num) (by norm_num)
  simp only [write_color]
  rw [h1, h2, h3]
  decide

/-- Every vector produced by the `random_unit_vector` loop has all
components nonnegative whenever the random stream is nonnegative (as
`rng.random_range(0.0..1.0)` is): the candidate's components are draws
in `[0, 1)` and normalization divides by a nonnegative square root. -/
theorem random_unit_vector_loop_nonneg {s : ℕ → ℝ} (hs : ∀ n, 0 ≤ s n) :
    ∀ fuel i v, random_unit_vector_loop s i fuel = some v →
      0 ≤ v.x ∧ 0 ≤ v.y ∧ 0 ≤ v.z := by
  intro fuel
  induction fuel with
  | zero =>
    intro i v h
    simp [random_unit_vector_loop] at h
  | succ n ih =>
    intro i v h
    rw [random_unit_vector_loop] at h
    split_ifs at h with hcond
    · obtain rfl : (vec3_random s i).divs
          (Real.sqrt (vec3_random s i).length_squared) = v :=
        Option.some.inj h
      exact ⟨div_nonneg (hs _) (Real.sqrt_nonneg _),
        div_nonneg (hs _) (Real.sqrt_nonneg _),
        div_nonneg (hs _) (Real.sqrt_nonneg _)⟩
    · exact ih (i + 1) v h

/-- C2.  `Isotropic::scatter` does return a ray that starts at the hit
point, keeps the incident ray's time, and an attenuation equal to the
texture's value at the hit's `(u, v, point)` — but its direction can
never have a negative component: `Vec3::random` draws every component
from `[0, 1)`, so `Vec3::random_unit_vector` only produces unit vectors
in the closed positive octant, refuting the claim that every unit
direction on the sphere is a possible output. -/
theorem isotropic_scatter_positive_octant (tex : ℝ → ℝ → Vec3R → Vec3R)
    (s : ℕ → ℝ) (fuel : ℕ) (ray_in : RayR) (record : HitRecordR)
    (out : Vec3R × RayR) (hs : ∀ n, 0 ≤ s n)
    (h : isotropic_scatter tex s fuel ray_in record = some out) :
    out.2.origin = record.point ∧ out.2.time = ray_in.time ∧
    out.1 = tex record.u record.v record.point ∧
    0 ≤ out.2.direction.x ∧ 0 ≤ out.2.direction.y ∧
    0 ≤ out.2.direction.z := by
  rw [isotropic_scatter, random_unit_vector] at h
  cases hrv : random_unit_vector_loop s 0 fuel with
  | none => rw [hrv] at h; simp at h
  | some dir =>
    rw [hrv] at h
    obtain rfl : (tex record.u record.v record.point,
        (⟨record.point, dir, ray_in.time⟩ : RayR)) = out :=
      Option.some.inj h
    have hd := random_unit_vector_loop_nonneg hs fuel 0 dir hrv
    exact ⟨rfl, rfl, rfl, hd.1, hd.2.1, hd.2.2⟩

/-- C2 (witness): a concrete run.  With the constant stream `1/2` the
first candidate is `(1/2, 1/2, 1/2)` with squared length `3/4`, which
is accepted, and the scatter theorem applies to the resulting
sample. -/
theorem isotropic_scatter_positive_octant_witness :
    ∃ out, isotropic_scatter (fun _ _ _ => ⟨1, 1, 1⟩) (fun _ => (1 : ℝ) / 2) 1
        ⟨⟨0, 0, 0⟩, ⟨0, 0, 0⟩, 0⟩ ⟨⟨1, 2, 3⟩, ⟨0, 0, 1⟩, 0, 1, 0, 0, true⟩ =
        some out ∧
      out.2.origin = (⟨1, 2, 3⟩ : Vec3R) ∧
      0 ≤ out.2.direction.x ∧ 0 ≤ out.2.direction.y ∧
      0 ≤ out.2.direction.z := by
  have heval : isotropic_scatter (fun _ _ _ => ⟨1, 1, 1⟩)
      (fun _ => (1 : ℝ) / 2) 1 ⟨⟨0, 0, 0⟩, ⟨0, 0, 0⟩, 0⟩
      ⟨⟨1, 2, 3⟩, ⟨0, 0, 1⟩, 0, 1, 0, 0, true⟩ =
      some (⟨1, 1, 1⟩,
        ⟨⟨1, 2, 3⟩, Vec3R.divs ⟨1 / 2, 1 / 2, 1 / 2⟩
          (Real.sqrt (3 / 4)), 0⟩) := by
    rw [isotropic_scatter, random_unit_vector, random_unit_vector_loop]
    rw [if_pos (by norm_num [vec3_random, Vec3R.length_squared])]
    simp only [Option.map_some]
    norm_num [vec3_random, Vec3R.length_squared]
  have hmain := isotropic_scatter_positive_octant
    (fun _ _ _ => ⟨1, 1, 1⟩) (fun _ => (1 : ℝ) / 2) 1
    ⟨⟨0, 0, 0⟩, ⟨0, 0, 0⟩, 0⟩ ⟨⟨1, 2, 3⟩, ⟨0, 0, 1⟩, 0, 1, 0, 0, true⟩
    _ (fun _ => by norm_num) heval
  exact ⟨_, heval, hmain.1, hmain.2.2.2.1, hmain.2.2.2.2.1, hmain.2.2.2.2.2⟩

/-- The dot product of a vector with itself is its `length_squared`. -/
theorem dot_self (v : Vec3R) : v.dot v = v.length_squared := rfl

/-- The squared length of a vector is nonnegative. -/
theorem length_squared_nonneg (v : Vec3R) : 0 ≤ v.length_squared := by
  obtain ⟨x, y, z⟩ := v
  simp only [Vec3R.length_squared]
  nlinarith [mul_self_nonneg x, mul_self_nonneg y, mul_self_nonneg z]

/-- The squared length after a componentwise scalar division. -/
theorem length_squared_divs (v : Vec3R) (s : ℝ) :
    (v.divs s).length_squared = v.length_squared / (s * s) := by
  obtain ⟨x, y, z⟩ := v
  simp only [Vec3R.divs, Vec3R.length_squared]
  ring

/-- The dot product after a scalar division on the left. -/
theorem dot_divs_left (v w : Vec3R) (s : ℝ) :
    (v.divs s).dot w = v.dot w / s := by
  obtain ⟨x, y, z⟩ := v; obtain ⟨a, b, c⟩ := w
  simp only [Vec3R.divs, Vec3R.dot]
  ring

/-- The dot product after a scalar division on the right. -/
theorem dot_divs_right (v w : Vec3R) (s : ℝ) :
    v.dot (w.divs s) = v.dot w / s := by
  obtain ⟨x, y, z⟩ := v; obtain ⟨a, b, c⟩ := w
  simp only [Vec3R.divs, Vec3R.dot]
  ring

/-- A stationary sphere's center ray evaluates to the center at any
time. -/
theorem at_stationary (v : Vec3R) (τ : ℝ) :
    RayR.at ⟨v, ⟨0, 0, 0⟩, 0⟩ τ = v := by
  obtain ⟨x, y, z⟩ := v
  simp [RayR.at, Vec3R.add, Vec3R.smul]

/-- The hit point minus the center, regrouped. -/
theorem point_sub_center (O C D : Vec3R) (t : ℝ) :
    (O.add (Vec3R.smul t D)).sub C = (Vec3R.smul t D).sub (C.sub O) := by
  obtain ⟨x, y, z⟩ := O; obtain ⟨a, b, c⟩ := C; obtain ⟨p, q, w⟩ := D
  simp only [Vec3R.add, Vec3R.smul, Vec3R.sub, Vec3R.mk.injEq]
  refine ⟨by ring, by ring, by ring⟩

/-- Expanding `length_squared` of `t*D - w`. -/
theorem length_squared_smul_sub (t : ℝ) (D w : Vec3R) :
    ((Vec3R.smul t D).sub w).length_squared =
      t * t * D.length_squared - 2 * t * D.dot w + w.length_squared := by
  obtain ⟨p, q, u⟩ := D; obtain ⟨a, b, c⟩ := w
  simp only [Vec3R.smul, Vec3R.sub, Vec3R.length_squared, Vec3R.dot]
  ring

/-- Expanding `D . (t*D - w)`. -/
theorem dot_smul_sub (t : ℝ) (D w : Vec3R) :
    D.dot ((Vec3R.smul t D).sub w) =
      t * D.length_squared - D.dot w := by
  obtain ⟨p, q, u⟩ := D; obtain ⟨a, b, c⟩ := w
  simp only [Vec3R.smul, Vec3R.sub, Vec3R.length_squared, Vec3R.dot]
  ring

/-- The method `set_face_normal` does not change the hit point. -/
theorem set_face_normal_point (rec : HitRecordR) (ray : RayR) (n : Vec3R) :
    (rec.set_face_normal ray n).point = rec.point := rfl

/-- The method `set_face_normal` does not change `t`. -/
theorem set_face_normal_t (rec : HitRecordR) (ray : RayR) (n : Vec3R) :
    (rec.set_face_normal ray n).t = rec.t := rfl

/-- When the ray direction opposes the outward normal,
`set_face_normal` keeps the normal and marks a front face. -/
theorem set_face_normal_of_dot_neg (rec : HitRecordR) (ray : RayR) (n : Vec3R)
    (h : ray.direction.dot n < 0) :
    (rec.set_face_normal ray n).normal = n ∧
      (rec.set_face_normal ray n).front_face = true := by
  simp [HitRecordR.set_face_normal, if_pos h]

/-- C5 (amended).  For every sphere with positive radius and every ray
aimed at its center along the unit direction `(C - O)/|C - O|` from an
origin *outside* the sphere, `Sphere::hit` over an interval that
strictly surrounds the entry distance returns a hit at
`t = |O - C| - r` (the distance to the surface), with the hit point on
the segment and the returned normal equal to the unit vector from the
center toward the hit point (a front-face hit).  For a ray starting
inside the sphere the claim fails: `set_face_normal` flips the normal
(see the counterexample). -/
theorem sphere_hit_center_ray (C O : Vec3R) (r : ℝ) (m : ℕ)
    (tmin tmax τ : ℝ) (hr : 0 < r) (hout : r < (C.sub O).length)
    (ht1 : tmin < (C.sub O).length - r)
    (ht2 : (C.sub O).length - r < tmax) :
    ∃ rec, (SphereR.stationary C r m).hit
        ⟨O, (C.sub O).divs (C.sub O).length, τ⟩ ⟨tmin, tmax⟩ = some rec ∧
      rec.t = (C.sub O).length - r ∧
      rec.point = O.add (Vec3R.smul ((C.sub O).length - r)
        ((C.sub O).divs (C.sub O).length)) ∧
      rec.normal = (rec.point.sub C).unit_vector ∧
      rec.front_face = true := by
  classical
  have hls0 : 0 ≤ (C.sub O).length_squared := length_squared_nonneg _
  have hs0 : 0 < (C.sub O).length := lt_trans hr hout
  have hsne : (C.sub O).length ≠ 0 := ne_of_gt hs0
  have hs2 : (C.sub O).length * (C.sub O).length = (C.sub O).length_squared :=
    Real.mul_self_sqrt hls0
  have h3 : max r 0 = r := max_eq_left hr.le
  have h1 : ((C.sub O).divs (C.sub O).length).length_squared = 1 := by
    rw [length_squared_divs, hs2, div_self]
    rw [← hs2]
    positivity
  have h2 : ((C.sub O).divs (C.sub O).length).dot (C.sub O) = (C.sub O).length := by
    rw [dot_divs_left, dot_self, ← hs2]
    field_simp
  have hs2' : (C.sub O).length_squared = (C.sub O).length * (C.sub O).length :=
    hs2.symm
  have hdisc9 : (C.sub O).length * (C.sub O).length -
      1 * ((C.sub O).length * (C.sub O).length - r * r) = r ^ 2 := by ring
  have hrne : r ≠ 0 := ne_of_gt hr
  have hsurr : ({ min := tmin, max := tmax } : IntervalR).surrounds
      ((C.sub O).length - r) := ⟨ht1, ht2⟩
  have hrooteq : (((C.sub O).divs (C.sub O).length).dot
        ((((RayR.mk C (Vec3R.mk 0 0 0) 0)).at τ).sub O) -
      Real.sqrt (((C.sub O).divs (C.sub O).length).dot
            ((((RayR.mk C (Vec3R.mk 0 0 0) 0)).at τ).sub O) *
          ((C.sub O).divs (C.sub O).length).dot
            ((((RayR.mk C (Vec3R.mk 0 0 0) 0)).at τ).sub O) -
          ((C.sub O).divs (C.sub O).length).length_squared *
            (((((RayR.mk C (Vec3R.mk 0 0 0) 0)).at τ).sub O).length_squared -
              (r ⊔ 0) * (r ⊔ 0)))) /
      ((C.sub O).divs (C.sub O).length).length_squared =
      (C.sub O).length - r := by
    simp only [at_stationary, h3, h1, h2, hs2']
    rw [hdisc9, Real.sqrt_sq hr.le]
    rw [div_one]
  have hsurrRaw : ({ min := tmin, max := tmax } : IntervalR).surrounds
      ((((C.sub O).divs (C.sub O).length).dot
        ((((RayR.mk C (Vec3R.mk 0 0 0) 0)).at τ).sub O) -
      Real.sqrt (((C.sub O).divs (C.sub O).length).dot
            ((((RayR.mk C (Vec3R.mk 0 0 0) 0)).at τ).sub O) *
          ((C.sub O).divs (C.sub O).length).dot
            ((((RayR.mk C (Vec3R.mk 0 0 0) 0)).at τ).sub O) -
          ((C.sub O).divs (C.sub O).length).length_squared *
            (((((RayR.mk C (Vec3R.mk 0 0 0) 0)).at τ).sub O).length_squared -
              (r ⊔ 0) * (r ⊔ 0)))) /
      ((C.sub O).divs (C.sub O).length).length_squared) := by
    rw [hrooteq]
    exact hsurr
  have hdotneg : ((RayR.mk O ((C.sub O).divs (C.sub O).length) τ)).direction.dot
      (((((RayR.mk O ((C.sub O).divs (C.sub O).length) τ)).at
        ((((C.sub O).divs (C.sub O).length).dot
            ((((RayR.mk C (Vec3R.mk 0 0 0) 0)).at τ).sub O) -
          Real.sqrt (((C.sub O).divs (C.sub O).length).dot
                ((((RayR.mk C (Vec3R.mk 0 0 0) 0)).at τ).sub O) *
              ((C.sub O).divs (C.sub O).length).dot
                ((((RayR.mk C (Vec3R.mk 0 0 0) 0)).at τ).sub O) -
              ((C.sub O).divs (C.sub O).length).length_squared *
                (((((RayR.mk C (Vec3R.mk 0 0 0) 0)).at τ).sub O).length_squared -
                  (r ⊔ 0) * (r ⊔ 0)))) /
          ((C.sub O).divs (C.sub O).length).length_squared)).sub
        (((RayR.mk C (Vec3R.mk 0 0 0) 0)).at τ)).divs (r ⊔ 0)) < 0 := by
    rw [hrooteq]
    simp only [at_stationary, h3]
    rw [show ((RayR.mk O ((C.sub O).divs (C.sub O).length) τ)).at
        ((C.sub O).length - r) =
      O.add (Vec3R.smul ((C.sub O).length - r)
        ((C.sub O).divs (C.sub O).length)) from rfl]
    rw [point_sub_center, dot_divs_right, dot_smul_sub, h1, h2]
    apply div_neg_of_neg_of_pos
    · nlinarith
    · exact hr
  have hw : ((((RayR.mk O ((C.sub O).divs (C.sub O).length) τ)).at
      ((C.sub O).length - r)).sub C).length_squared = r ^ 2 := by
    rw [show ((RayR.mk O ((C.sub O).divs (C.sub O).length) τ)).at
        ((C.sub O).length - r) =
      O.add (Vec3R.smul ((C.sub O).length - r)
        ((C.sub O).divs (C.sub O).length)) from rfl]
    rw [point_sub_center, length_squared_smul_sub, h1, h2, hs2']
    ring
  refine ⟨?_, ?_, ?_, ?_, ?_, ?_⟩
  rotate_left 1
  case _ =>
    simp only [SphereR.stationary, SphereR.hit]
    split_ifs with c1
    · exfalso
      simp only [at_stationary, h3, h1, h2, hs2'] at c1
      rw [hdisc9] at c1
      nlinarith [sq_nonneg r]
    · generalize hI : (if ¬({ min := tmin, max := tmax } : IntervalR).surrounds
          ((((C.sub O).divs (C.sub O).length).dot
              ((((RayR.mk C (Vec3R.mk 0 0 0) 0)).at τ).sub O) -
            Real.sqrt (((C.sub O).divs (C.sub O).length).dot
                  ((((RayR.mk C (Vec3R.mk 0 0 0) 0)).at τ).sub O) *
                ((C.sub O).divs (C.sub O).length).dot
                  ((((RayR.mk C (Vec3R.mk 0 0 0) 0)).at τ).sub O) -
                ((C.sub O).divs (C.sub O).length).length_squared *
                  (((((RayR.mk C (Vec3R.mk 0 0 0) 0)).at τ).sub O).length_squared -
                    (r ⊔ 0) * (r ⊔ 0)))) /
            ((C.sub O).divs (C.sub O).length).length_squared) then
          (((C.sub O).divs (C.sub O).length).dot
              ((((RayR.mk C (Vec3R.mk 0 0 0) 0)).at τ).sub O) +
            Real.sqrt (((C.sub O).divs (C.sub O).length).dot
                  ((((RayR.mk C (Vec3R.mk 0 0 0) 0)).at τ).sub O) *
                ((C.sub O).divs (C.sub O).length).dot
                  ((((RayR.mk C (Vec3R.mk 0 0 0) 0)).at τ).sub O) -
                ((C.sub O).divs (C.sub O).length).length_squared *
                  (((((RayR.mk C (Vec3R.mk 0 0 0) 0)).at τ).sub O).length_squared -
                    (r ⊔ 0) * (r ⊔ 0)))) /
            ((C.sub O).divs (C.sub O).length).length_squared else
          (((C.sub O).divs (C.sub O).length).dot
              ((((RayR.mk C (Vec3R.mk 0 0 0) 0)).at τ).sub O) -
            Real.sqrt (((C.sub O).divs (C.sub O).length).dot
                  ((((RayR.mk C (Vec3R.mk 0 0 0) 0)).at τ).sub O) *
                ((C.sub O).divs (C.sub O).length).dot
                  ((((RayR.mk C (Vec3R.mk 0 0 0) 0)).at τ).sub O) -
                ((C.sub O).divs (C.sub O).length).length_squared *
                  (((((RayR.mk C (Vec3R.mk 0 0 0) 0)).at τ).sub O).length_squared -
                    (r ⊔ 0) * (r ⊔ 0)))) /
            ((C.sub O).divs (C.sub O).length).length_squared) = root
      rw [if_neg (not_not_intro hsurrRaw)] at hI
      subst hI
      exact rfl
  case _ =>
    rw [set_face_normal_t]
    exact hrooteq
  case _ =>
    rw [set_face_normal_point]
    rw [hrooteq]
    rfl
  case _ =>
    rw [(set_face_normal_of_dot_neg _ _ _ hdotneg).1, set_face_normal_point]
    rw [hrooteq]
    simp only [at_stationary, h3]
    have hlen : ((((RayR.mk O ((C.sub O).divs (C.sub O).length) τ)).at
        ((C.sub O).length - r)).sub C).length = r := by
      show Real.sqrt (((((RayR.mk O ((C.sub O).divs (C.sub O).length) τ)).at
        ((C.sub O).length - r)).sub C).length_squared) = r
      rw [hw, Real.sqrt_sq hr.le]
    rw [Vec3R.unit_vector, hlen]
  case _ =>
    exact (set_face_normal_of_dot_neg _ _ _ hdotneg).2


/-- C5 (witness): the claim's concrete scenario.  The sphere at
`(0,0,-1)` with radius `1/2` and the ray from the origin toward the
center hit at `t = 1/2` with the normal pointing back along `+z`. -/
theorem sphere_hit_center_ray_witness :
    ∃ rec, (SphereR.stationary ⟨0, 0, -1⟩ (1 / 2) 0).hit
        ⟨⟨0, 0, 0⟩, (((⟨0, 0, -1⟩ : Vec3R)).sub ⟨0, 0, 0⟩).divs
          (((⟨0, 0, -1⟩ : Vec3R)).sub ⟨0, 0, 0⟩).length, 0⟩
        ⟨1 / 1000, 10⟩ = some rec ∧
      rec.t = (((⟨0, 0, -1⟩ : Vec3R)).sub ⟨0, 0, 0⟩).length - 1 / 2 ∧
      rec.normal = (rec.point.sub ⟨0, 0, -1⟩).unit_vector ∧
      rec.front_face = true := by
  have hlen : (((⟨0, 0, -1⟩ : Vec3R)).sub ⟨0, 0, 0⟩).length = 1 := by
    show Real.sqrt ((((⟨0, 0, -1⟩ : Vec3R)).sub ⟨0, 0, 0⟩).length_squared) = 1
    norm_num [Vec3R.sub, Vec3R.length_squared]
  obtain ⟨rec, he, ht, hp, hn, hf⟩ :=
    sphere_hit_center_ray ⟨0, 0, -1⟩ ⟨0, 0, 0⟩ (1 / 2) 0 (1 / 1000) 10 0
      (by norm_num) (by rw [hlen]; norm_num) (by rw [hlen]; norm_num)
      (by rw [hlen]; norm_num)
  exact ⟨rec, he, ht, hn, hf⟩

/-- C5 (counterexample).  For the ray that starts *at the center* of
the sphere `(0,0,-1)` with radius `1/2` and points along `(0,0,-1)`,
`Sphere::hit` returns `t = 1/2`, hit point `(0,0,-3/2)` and normal
`(0,0,1)` — but the unit vector from the center toward the hit point is
`(0,0,-1)`: `set_face_normal` flips the outward normal for a hit from
inside, so the claim's unrestricted sentence about rays through the
center is false. -/
theorem sphere_hit_inside_origin_normal_flipped :
    ((SphereR.stationary ⟨0, 0, -1⟩ (1 / 2) 0).hit
        ⟨⟨0, 0, -1⟩, ⟨0, 0, -1⟩, 0⟩ ⟨1 / 1000, 10⟩).map
      (fun r => (r.t, r.point.z, r.normal.z)) = some (1 / 2, -(3 / 2), 1) ∧
    (((⟨0, 0, -3 / 2⟩ : Vec3R)).sub ⟨0, 0, -1⟩).unit_vector.z = -1 ∧
    ((1 : ℝ) = -1) = False := by
  have h14 : Real.sqrt (1 / 4 : ℝ) = 1 / 2 := by
    rw [show (1 / 4 : ℝ) = (1 / 2) ^ 2 by norm_num,
      Real.sqrt_sq (by norm_num)]
  refine ⟨?_, ?_, eq_false (by norm_num)⟩
  · norm_num [SphereR.stationary, SphereR.hit, RayR.at, Vec3R.add,
      Vec3R.smul, Vec3R.sub, Vec3R.divs, Vec3R.dot, Vec3R.length_squared,
      IntervalR.surrounds, HitRecordR.set_face_normal, Vec3R.neg, h14]
  · norm_num [Vec3R.sub, Vec3R.unit_vector, Vec3R.divs, Vec3R.length,
      Vec3R.length_squared, h14]

end RayTracer
